import Mathlib

/-!
Verification of the clue command-line parser (`include/clue/clue.h`).

The embedding models the pieces of `clue::CommandLine<T>::ParseArgs` that the
checked properties exercise: the base-10 integer scalar parser built on
`std::from_chars`, the token-consumption loop with named / positional / help /
unrecognized resolution, the bool / int / string / `std::vector<int>`
destination kinds, the arity checks for bounded sequences, the
required-arguments sweep, and the `StringBuilder::AppendNatural` word-wrapping
loop used by `PrintUsage`.

Tokens are modelled as `List Char` (the C++ code works on `std::string_view`,
a byte sequence; we consider ASCII tokens, where one char is one byte, so
`token.substr(1)` is `List.drop 1`).  The output aggregate `T t` together with
any caller-owned standalone storage is modelled as a store `Nat → Value`
indexed by slot numbers; each registered argument carries the slot its
destination pointer refers to.  `std::exit(1)` is modelled by the
`Outcome.exited` constructor carrying the engine state at the moment of exit.
-/

namespace Clue

/-- A command-line token (`std::string_view` contents). -/
abbrev Tok := List Char

/-- `std::numeric_limits<int>::min()` on the 32-bit-int platforms the header
targets. -/
def intMin : Int := -(2 ^ 31)

/-- `std::numeric_limits<int>::max()`. -/
def intMax : Int := 2 ^ 31 - 1

/-- `std::numeric_limits<size_t>::max()`, the default `maxArgs` bound of a
vector argument. -/
def sizeTMax : Nat := 2 ^ 64 - 1

/-- The `std::errc` outcomes `std::from_chars` can produce for an int. -/
inductive Ec where
  | ok
  | invalidArgument
  | resultOutOfRange
deriving DecidableEq, Repr

/-- Result of `std::from_chars(first, last, v)` for `int`: the error code and
the value written to `v` (0 stands for the unspecified value left in `v` on
the two failure outcomes; the callers never read it there). -/
structure FromCharsRes where
  ec : Ec
  value : Int
deriving DecidableEq, Repr

/-- Numeric value of an ASCII digit. -/
def digitVal (c : Char) : Nat := c.toNat - 48

/-- `std::from_chars` for `int`, base 10: match an optional `'-'` followed by
the longest nonempty run of decimal digits.  No digits at all is
`invalid_argument`; a matched digit run whose mathematical value does not fit
in `int` is `result_out_of_range`; otherwise the value of the matched prefix
is produced — trailing characters after the digit run are not examined (the
caller in `ParseArgs` ignores `result.ptr`). -/
def fromCharsInt (cs : Tok) : FromCharsRes :=
  let neg : Bool := cs.head? = some '-'
  let rest : Tok := if neg then cs.tail else cs
  let ds := rest.takeWhile (fun c => c.isDigit)
  if ds = [] then ⟨Ec.invalidArgument, 0⟩
  else
    let n : Nat := ds.foldl (fun a c => a * 10 + digitVal c) 0
    let v : Int := if neg then -(n : Int) else (n : Int)
    if v < intMin then ⟨Ec.resultOutOfRange, 0⟩
    else if intMax < v then ⟨Ec.resultOutOfRange, 0⟩
    else ⟨Ec.ok, v⟩

/-- The `clue::ParseFlags` bits that `ParseArgs` consults. -/
structure Flags where
  noExitOnError : Bool := false
  skipUnrecognized : Bool := false
  noAutoHelp : Bool := false
  noDefault : Bool := false
  required : Bool := false
deriving DecidableEq, Repr

/-- A value held in one destination slot. -/
inductive Value where
  | intV (i : Int)
  | boolV (b : Bool)
  | strV (s : Tok)
  | vecIntV (v : List Int)
deriving DecidableEq, Repr

/-- The destination kinds of `ArgumentVariant` that the checked claims
exercise: `DataPointer<int>`, `DataPointer<bool>`, the string variant, and
`Vector<int>` / `VectorMember<int>` with its `[minArgs, maxArgs]` bounds. -/
inductive ArgKind where
  | intArg
  | boolArg
  | stringArg
  | vecIntArg (minArgs maxArgs : Nat)
deriving DecidableEq, Repr

/-- One registered `Arg` descriptor (name, destination slot, flags,
`wasSet`, `isPositional`). -/
structure Arg where
  name : Tok
  kind : ArgKind
  slot : Nat
  required : Bool := false
  wasSet : Bool := false
  isPositional : Bool := false
deriving DecidableEq, Repr

instance : Inhabited Arg := ⟨⟨[], ArgKind.intArg, 0, false, false, false⟩⟩

/-- The diagnostics `ReportError` is called with. -/
inductive ErrKind where
  | unrecognized (tok : Tok)
  | expectedIntValue (argName : Tok)
  | malformedInt (argName tok : Tok)
  | intOutOfRange (argName tok : Tok)
  | expectedStringValue (argName : Tok)
  | arityTooFew (argName : Tok) (minArgs found : Nat)
  | arityTooMany (argName : Tok) (maxArgs : Nat)
  | missingRequired (report : List Tok)
deriving DecidableEq, Repr

/-- The stores (the output aggregate `T t` plus caller-owned standalone
storage), one `Value` per destination slot. -/
abbrev Store := Nat → Value

/-- Mutable engine state during one `ParseArgs` call. -/
structure EngineSt where
  store : Store
  args : List Arg
  positionals : List Arg
  errors : List ErrKind
  usagePrinted : Bool

/-- Result of one `ParseArgs` call: either `std::exit code` was reached
(carrying the state at that moment) or a `ParseResult{t, success}` was
returned. -/
inductive Outcome where
  | exited (code : Int) (st : EngineSt)
  | result (st : EngineSt) (success : Bool)

/-- The store, whether the call exited or returned. -/
def Outcome.store : Outcome → Store
  | .exited _ st => st.store
  | .result st _ => st.store

/-- The reported diagnostics, whether the call exited or returned. -/
def Outcome.errors : Outcome → List ErrKind
  | .exited _ st => st.errors
  | .result st _ => st.errors

/-- Whether usage text was printed, whether the call exited or returned. -/
def Outcome.usagePrinted : Outcome → Bool
  | .exited _ st => st.usagePrinted
  | .result st _ => st.usagePrinted

/-- The exit code, when the call exited. -/
def Outcome.exitCode : Outcome → Option Int
  | .exited c _ => some c
  | .result _ _ => none

/-- The success flag of the returned `ParseResult`, when the call returned. -/
def Outcome.success : Outcome → Option Bool
  | .exited _ _ => none
  | .result _ s => some s

/-- Write one slot of the store. -/
def setSlot (store : Store) (slot : Nat) (v : Value) : Store :=
  fun i => if i = slot then v else store i

/-- The bool currently held in a slot (the slot of a `DataPointer<bool>`
argument always holds a `boolV`). -/
def getBool : Value → Bool
  | .boolV b => b
  | _ => false

/-- Write one destination slot of the engine's store. -/
def writeSlot (st : EngineSt) (slot : Nat) (v : Value) : EngineSt :=
  { st with store := setSlot st.store slot v }

/-- Record one `ReportError` diagnostic. -/
def report (st : EngineSt) (e : ErrKind) : EngineSt :=
  { st with errors := st.errors ++ [e] }

/-- `ReportError`'s disposition: `std::exit(1)` unless `kNoExitOnError` is
set, in which case the enclosing `ParseArgs` path returns
`ParseResult{t, success}` with the given flag. -/
def errorOutcome (flags : Flags) (st : EngineSt) (success : Bool) : Outcome :=
  if flags.noExitOnError then Outcome.result st success else Outcome.exited 1 st

/-- The reserved auto-help spellings checked at the top of the token loop. -/
def isHelpTok (t : Tok) : Bool :=
  t = "-h".data || t = "-help".data || t = "--help".data || t = "/?".data

/-- `token.size() >= 1` guarded search of `args_` for the first descriptor
whose name equals `token.substr(1)` (the first character is dropped
unconditionally, whatever it is). -/
def findNamedIdx (args : List Arg) (token : Tok) : Option Nat :=
  if 1 ≤ token.length then
    args.findIdx? (fun a => a.name = token.drop 1)
  else none

/-- The `ParseInt` lambda of `ParseArgs`: advance `argIndex`, fail when no
token remains, otherwise `std::from_chars` over the whole token, mapping the
two error codes to diagnostics (suppressed when `reportErrors` is false).
Returns the new `argIndex`, the new diagnostics list, and
`ParseResult<int>{v, success}`. -/
def parseIntTok (argv : List Tok) (argName : Tok) (reportErrors : Bool)
    (argIndex : Nat) (errors : List ErrKind) : Nat × List ErrKind × (Int × Bool) :=
  let argIndex := argIndex + 1
  if argv.length ≤ argIndex then
    (argIndex,
     (if reportErrors then errors ++ [ErrKind.expectedIntValue argName] else errors),
     (0, false))
  else
    let tok := argv.getD argIndex []
    let r := fromCharsInt tok
    match r.ec with
    | Ec.invalidArgument =>
        (argIndex,
         (if reportErrors then errors ++ [ErrKind.malformedInt argName tok] else errors),
         (r.value, false))
    | Ec.resultOutOfRange =>
        (argIndex,
         (if reportErrors then errors ++ [ErrKind.intOutOfRange argName tok] else errors),
         (r.value, false))
    | Ec.ok => (argIndex, errors, (r.value, true))

/-- The loop of `ParseVector` (specialized, as the header instantiates it,
to `ParseInt` with `reportErrors = false`): while `*argIndex <= argc`,
sub-parse the next token; on success push it and count it, on failure rewind
`*argIndex` by one and stop.  Structural recursion on a fuel argument; each
iteration advances `argIndex` by one, so `argv.length + 2` fuel always
suffices. -/
def parseVectorLoop (argv : List Tok) (argName : Tok) :
    Nat → Nat → List Int → List ErrKind → Nat × List Int × List ErrKind × Nat
  | 0, argIndex, acc, errors => (argIndex, acc, errors, 0)
  | fuel + 1, argIndex, acc, errors =>
    if argIndex ≤ argv.length then
      let (ai, errs, r) := parseIntTok argv argName false argIndex errors
      if r.2 then
        let (aiF, vecF, errsF, c) := parseVectorLoop argv argName fuel ai (acc ++ [r.1]) errs
        (aiF, vecF, errsF, c + 1)
      else
        (ai - 1, acc, errs, 0)
    else (argIndex, acc, errors, 0)

/-- `ParseVector`: clear the destination vector, then consume greedily.
Returns the final `argIndex`, the vector contents, the diagnostics, and the
consumed count. -/
def parseVector (argv : List Tok) (argName : Tok) (argIndex : Nat)
    (errors : List ErrKind) : Nat × List Int × List ErrKind × Nat :=
  parseVectorLoop argv argName (argv.length + 2) argIndex [] errors

/-- The `<type>` suffix `AppendNameAndType` prints after an argument's
name. -/
def typeSuffix : ArgKind → Tok
  | ArgKind.intArg => " <int>".data
  | ArgKind.boolArg => []
  | ArgKind.stringArg => " <string>".data
  | ArgKind.vecIntArg mn mx =>
    if mn ≠ 0 ∧ mx ≠ sizeTMax then
      (" <int[" ++ toString mn ++ ":" ++ toString mx ++ "]>").data
    else if mn ≠ 0 ∧ mx = sizeTMax then
      (" <int[" ++ toString mn ++ ":]>").data
    else if mn = 0 ∧ mx ≠ sizeTMax then
      (" <int[:" ++ toString mx ++ "]>").data
    else " <int[...]>".data

/-- `AppendNameAndType`: `[`/`]` wrapping unless required, a `-` prefix
unless positional, the name, and the type suffix. -/
def nameAndType (flags : Flags) (arg : Arg) : Tok :=
  let namePrefix : Tok := if arg.isPositional then [] else ['-']
  let ps : Tok × Tok :=
    if flags.required = false ∧ arg.required = false then (['['], [']']) else ([], [])
  ps.1 ++ namePrefix ++ arg.name ++ typeSuffix arg.kind ++ ps.2

/-- The post-loop required-arguments sweep of `ParseArgs`: collect every
descriptor flagged required (individually or via the global `kRequired`)
with `wasSet == false`, positionals first, then optionals; if any, print
usage, report the accumulated name-and-type lines, and — exactly as the
source does — fall through to `return {t, true}` when `ReportError` did not
exit. -/
def requiredSweep (flags : Flags) (st : EngineSt) : Outcome :=
  let missing : List Tok :=
    ((st.positionals.filter fun a => (flags.required || a.required) && !a.wasSet).map
      (nameAndType flags))
    ++ ((st.args.filter fun a => (flags.required || a.required) && !a.wasSet).map
      (nameAndType flags))
  if missing.isEmpty then Outcome.result st true
  else
    let st := { st with usagePrinted := true }
    let st := report st (ErrKind.missingRequired missing)
    if flags.noExitOnError then Outcome.result st true else Outcome.exited 1 st

/-- Result of one outer-loop iteration body: an early `return`/`exit`, or
the continuation state (the `argIndex` value as of the end of the body; the
loop header then increments it). -/
inductive StepRes where
  | done (o : Outcome)
  | next (argIndex cp : Nat) (st : EngineSt)

/-- Mark `arg.wasSet = true` on the targeted descriptor. -/
def markSet (st : EngineSt) (isPos : Bool) (idx : Nat) : EngineSt :=
  if isPos then
    { st with positionals :=
        st.positionals.set idx { st.positionals.getD idx default with wasSet := true } }
  else
    { st with args := st.args.set idx { st.args.getD idx default with wasSet := true } }

/-- The destination-kind dispatch of `ParseArgs` for one target descriptor.
`ai` is `argIndex` after the positional rewind (if any); `idx` locates the
descriptor in `args_` or `positionalArgs_`; `cp` is the already-advanced
positional cursor. -/
def dispatchArg (flags : Flags) (argv : List Tok) (ai : Nat) (isPos : Bool)
    (idx cp : Nat) (st : EngineSt) : StepRes :=
  let arg := (if isPos then st.positionals else st.args).getD idx default
  match arg.kind with
  | ArgKind.intArg =>
    let (ai', errs, r) := parseIntTok argv arg.name true ai st.errors
    if r.2 then
      StepRes.next ai' cp
        (markSet (writeSlot { st with errors := errs } arg.slot (Value.intV r.1)) isPos idx)
    else
      StepRes.done (errorOutcome flags { st with errors := errs } false)
  | ArgKind.vecIntArg mn mx =>
    let (ai', vec, errs, c) := parseVector argv arg.name ai st.errors
    let st := writeSlot { st with errors := errs } arg.slot (Value.vecIntV vec)
    if c < mn then
      StepRes.done (errorOutcome flags (report st (ErrKind.arityTooFew arg.name mn vec.length)) false)
    else if mx < c then
      StepRes.done (errorOutcome flags (report st (ErrKind.arityTooMany arg.name mx)) false)
    else
      StepRes.next ai' cp (markSet st isPos idx)
  | ArgKind.boolArg =>
    let cur := getBool (st.store arg.slot)
    StepRes.next ai cp (markSet (writeSlot st arg.slot (Value.boolV (!cur))) isPos idx)
  | ArgKind.stringArg =>
    let ai' := ai + 1
    if argv.length ≤ ai' then
      StepRes.done (errorOutcome flags (report st (ErrKind.expectedStringValue arg.name)) false)
    else
      StepRes.next ai' cp
        (markSet (writeSlot st arg.slot (Value.strV (argv.getD ai' []))) isPos idx)

/-- One iteration body of the token loop: help check, named lookup,
positional fallback, unrecognized handling, then destination dispatch. -/
def parseStep (flags : Flags) (argv : List Tok) (argIndex cp : Nat)
    (st : EngineSt) : StepRes :=
  let token := argv.getD argIndex []
  if flags.noAutoHelp = false ∧ isHelpTok token = true then
    StepRes.done (Outcome.exited 1 { st with usagePrinted := true })
  else
    match findNamedIdx st.args token with
    | some i => dispatchArg flags argv argIndex false i cp st
    | none =>
      if cp < st.positionals.length then
        dispatchArg flags argv (argIndex - 1) true cp (cp + 1) st
      else
        if flags.skipUnrecognized then StepRes.next argIndex cp st
        else StepRes.done (errorOutcome flags (report st (ErrKind.unrecognized token)) false)

/-- The outer token loop `for (int argIndex = 1; argIndex < argc; ...)`,
fuelled; when the loop condition fails, the required sweep runs.  Every
iteration either returns or makes progress on `argc - argIndex` or on the
positional cursor, so `argv.length + positionals.length + 1` fuel always
suffices. -/
def parseLoop (flags : Flags) (argv : List Tok) :
    Nat → Nat → Nat → EngineSt → Outcome
  | 0, _, _, st => Outcome.result st true
  | fuel + 1, argIndex, cp, st =>
    if argIndex < argv.length then
      match parseStep flags argv argIndex cp st with
      | StepRes.done o => o
      | StepRes.next ai' cp' st' => parseLoop flags argv fuel (ai' + 1) cp' st'
    else requiredSweep flags st

/-- `CommandLine::ParseArgs(argc, argv, flags)` over a registry of named and
positional descriptors and the initial (default-constructed plus
caller-initialized) store. -/
def parseArgs (args positionals : List Arg) (store : Store) (argv : List Tok)
    (flags : Flags) : Outcome :=
  parseLoop flags argv (argv.length + positionals.length + 1) 1 0
    ⟨store, args, positionals, [], false⟩

/-! ## `StringBuilder::AppendNatural`

The natural-wrapping renderer invoked by `PrintUsage` on every description
string.  The character buffer `const char* str` with its `int length` is
modelled as a function `Nat → Char` plus the length; the `StringBuilder`'s
accumulated text and `lineLen_` are carried in the loop state. -/

/-- `StringBuilder::maxLineLen_`. -/
def maxLineLen : Nat := 80

/-- The loop state of `AppendNatural`: the builder's buffer and `lineLen_`,
and the local variables `cursor`, `currentLineStart`, `lastBreakablePos`. -/
structure ANState where
  out : List Char
  lineLen : Nat
  cursor : Nat
  currentLineStart : Nat
  lastBreakablePos : Nat
deriving Repr

/-- `AppendAndGrow("%.*s", n, &str[start])`: append `n` characters of the
buffer starting at `start` and add the appended count to `lineLen_`.  A
negative `n` makes `vsnprintf` treat the precision as absent and print up to
a terminating NUL; we model that as appending the rest of the
`length`-character buffer (no execution analyzed below reaches a negative
count). -/
def appendSub (str : Nat → Char) (length : Nat) (s : ANState) (start : Nat)
    (n : Int) : ANState :=
  let k := if n < 0 then length - start else n.toNat
  { s with out := s.out ++ (List.range' start k).map str, lineLen := s.lineLen + k }

/-- The `while` condition: `cursor < length && str[cursor] != '\0'`. -/
def anCond (str : Nat → Char) (length : Nat) (s : ANState) : Bool :=
  decide (s.cursor < length) && decide (str s.cursor ≠ Char.ofNat 0)

/-- One iteration body of the `AppendNatural` loop: note a whitespace break
position; at a newline, flush the line (which contains the newline itself),
reset `lineLen_`, indent, and continue after it; past `maxLineLen_`, flush up
to and including `lastBreakablePos`, emit a newline plus indent, and continue
from `lastBreakablePos + 1`; otherwise advance the cursor. -/
def anBody (str : Nat → Char) (length indent : Nat) (s : ANState) : ANState :=
  let c := str s.cursor
  let s := if c = ' ' ∨ c = '\t' then { s with lastBreakablePos := s.cursor } else s
  if c = '\n' then
    let s := appendSub str length s s.currentLineStart
      ((s.cursor : Int) - (s.currentLineStart : Int) + 1)
    let s := { s with lineLen := 0 }
    let s := { s with out := s.out ++ List.replicate indent ' ',
                      lineLen := s.lineLen + indent }
    { s with cursor := s.cursor + 1, currentLineStart := s.cursor + 1 }
  else if (s.cursor : Int) - (s.currentLineStart : Int) + (s.lineLen : Int) >
      (maxLineLen : Int) then
    let s := appendSub str length s s.currentLineStart
      ((s.lastBreakablePos : Int) - (s.currentLineStart : Int) + 1)
    let s := { s with out := s.out ++ ['\n'], lineLen := 0 }
    let s := { s with out := s.out ++ List.replicate indent ' ',
                      lineLen := s.lineLen + indent }
    { s with cursor := s.lastBreakablePos + 1,
             currentLineStart := s.lastBreakablePos + 1 }
  else { s with cursor := s.cursor + 1 }

/-- The fuelled `AppendNatural` loop; `none` when the loop has not finished
within the given number of iterations (so `(∀ fuel, ... = none)` states that
the loop never finishes). -/
def anLoop (str : Nat → Char) (length indent : Nat) :
    Nat → ANState → Option ANState
  | 0, _ => none
  | fuel + 1, s =>
    if anCond str length s then anLoop str length indent fuel (anBody str length indent s)
    else some s

/-- `AppendNatural(indent, str, length)` starting from a builder whose buffer
holds `out0` with current line length `lineLen0`: run the loop, then append
the unflushed tail of the current line. -/
def appendNatural (str : Nat → Char) (length indent : Nat) (fuel : Nat)
    (out0 : List Char) (lineLen0 : Nat) : Option ANState :=
  match anLoop str length indent fuel ⟨out0, lineLen0, 0, 0, 0⟩ with
  | none => none
  | some s =>
    some (appendSub str length s s.currentLineStart
      ((s.cursor : Int) - (s.currentLineStart : Int)))

/-! ## Reference definitions used to state claims -/

/-- The mathematical value, with sign, of a most-significant-first digit run,
via Mathlib's `Nat.ofDigits` (which takes the least significant digit
first).  Used to state the amended integer-parser claim. -/
def signedDigitsVal (sgn : Bool) (ds : Tok) : Int :=
  (if sgn then -1 else 1) * ((Nat.ofDigits 10 ((ds.map digitVal).reverse) : ℕ) : Int)

/-- Reference greedy semantics for bounded-sequence consumption (amended
claim C3): starting at the tokens after the sequence's own flag token, take
values while they parse as ints and stop at the first token that does not
(or at the end of input); that failing token is not part of the result. -/
def greedyInts : List Tok → List Int × Nat
  | [] => ([], 0)
  | t :: ts =>
    let r := fromCharsInt t
    if r.ec = Ec.ok then
      let p := greedyInts ts
      (r.value :: p.1, p.2 + 1)
    else ([], 0)

/-! ## Fixtures: the concrete registrations the checked scenarios use -/

/-- A store whose every slot defaults to the int 0. -/
def zeroStore : Store := fun _ => Value.intV 0

/-- Registry with a single (non-required) optional int `-count`. -/
def countReg : List Arg := [⟨"count".data, ArgKind.intArg, 0, false, false, false⟩]

/-- Registry for the sequence-vs-name-match scenario: an unbounded optional
int vector `-vals` and an optional int whose registered name is `2`. -/
def valsAndTwoReg : List Arg :=
  [⟨"vals".data, ArgKind.vecIntArg 0 sizeTMax, 0, false, false, false⟩,
   ⟨"2".data, ArgKind.intArg, 1, false, false, false⟩]

/-- Registry with a single optional int vector `-vals` of arity `[3, 5]`. -/
def vals35Reg : List Arg := [⟨"vals".data, ArgKind.vecIntArg 3 5, 0, false, false, false⟩]

/-- Registry with a single optional bool flag `-verbose`. -/
def verboseReg : List Arg := [⟨"verbose".data, ArgKind.boolArg, 0, false, false, false⟩]

/-- One positional string argument `msg` bound to slot 1. -/
def msgPos : List Arg := [⟨"msg".data, ArgKind.stringArg, 1, false, false, true⟩]

/-- Two positional string arguments `p1`, `p2` in registration order. -/
def twoStringPos : List Arg :=
  [⟨"p1".data, ArgKind.stringArg, 0, false, false, true⟩,
   ⟨"p2".data, ArgKind.stringArg, 1, false, false, true⟩]

/-- Registry with a single *required* optional int `-count`. -/
def requiredCountReg : List Arg := [⟨"count".data, ArgKind.intArg, 0, true, false, false⟩]

/-- One positional string argument `name` bound to slot 0. -/
def namePos : List Arg := [⟨"name".data, ArgKind.stringArg, 0, false, false, true⟩]

/-- Initial store for the bool-toggle scenario: slot 0 holds the bool `b`,
slot 1 the string default. -/
def toggleStore (b : Bool) : Store :=
  fun i => if i = 0 then Value.boolV b else Value.strV "d".data

/-- The parse of the C1 counterexample: `-count` followed by `123abc`. -/
def c1Run : Outcome :=
  parseArgs countReg [] zeroStore ["prog".data, "-count".data, "123abc".data] {}

/-- The parse of the C3 counterexample: `-vals 1 -2 3` where `-2`
name-matches the registered optional `2`. -/
def c3Run : Outcome :=
  parseArgs valsAndTwoReg [] zeroStore
    ["prog".data, "-vals".data, "1".data, "-2".data, "3".data] {}

/-- A `[3, 5]` sequence parse supplying the given value tokens, under
`kNoExitOnError`. -/
def c4Run (vals : List Tok) : Outcome :=
  parseArgs vals35Reg [] zeroStore (["prog".data, "-vals".data] ++ vals)
    { noExitOnError := true }

/-- The bool-toggle parse: `-verbose` once, then a positional `hello`. -/
def c5Run (b : Bool) : Outcome :=
  parseArgs verboseReg msgPos (toggleStore b)
    ["prog".data, "-verbose".data, "hello".data] {}

/-- The two-positional parse on tokens `x`, `y`. -/
def c6Run (x y : Tok) : Outcome :=
  parseArgs [] twoStringPos zeroStore ["prog".data, x, y] {}

/-- The missing-required parse: required `-count` never supplied, under
`kNoExitOnError`. -/
def c2Run : Outcome :=
  parseArgs requiredCountReg [] zeroStore ["prog".data] { noExitOnError := true }

/-- The global-`kRequired` missing-positional parse, with the given
no-exit-on-error setting. -/
def c7Run (noExit : Bool) : Outcome :=
  parseArgs [] namePos zeroStore ["prog".data]
    { noExitOnError := noExit, required := true }

/-- The parse of a token whose tail is `count` followed by the value `7`,
against the `-count` optional plus a positional `msg`. -/
def c10Run (token : Tok) : Outcome :=
  parseArgs countReg msgPos zeroStore ["prog".data, token, "7".data] {}

/-- Loop-control invariant of the diverging `AppendNatural` run on 100
non-whitespace characters with indent 0: after the first wrap the state
keeps cycling between `cursor = 1` and `cursor = 82` with
`currentLineStart = 1` and a stale `lastBreakablePos = 0`. -/
def anDivInv (s : ANState) : Prop :=
  s.lastBreakablePos = 0 ∧ s.lineLen = 0 ∧
    ((s.currentLineStart = 0 ∧ s.cursor ≤ 81) ∨
     (s.currentLineStart = 1 ∧ 1 ≤ s.cursor ∧ s.cursor ≤ 82))

/-! ## Theorems -/

/-- C1, counterexample: the claim says a token with trailing non-integer
characters, such as `123abc`, fails as `MalformedValue`; in fact the engine
(`ParseInt` checks only `result.ec`, never that `result.ptr` reached the end
of the token) accepts `-count 123abc`, stores the numeric prefix 123, and
reports no error. -/
theorem C1_counterexample :
    c1Run.success = some true ∧ c1Run.store 0 = Value.intV 123 ∧ c1Run.errors = [] := by
  decide

/-- C2, evaluated at the failing input (code bug): with a required optional
`-count <int>` never supplied and `kNoExitOnError` set, `ParseArgs` prints
usage and the missing-required report listing `-count <int>`, but then
reaches its final `return {t, true}`: the returned result has
`success = true`, contradicting the claim (and clue.h's own comments on
`kNoExitOnError` and `ParseArgs`). -/
theorem C2_missing_required_returns_success :
    c2Run.usagePrinted = true ∧
    c2Run.errors = [ErrKind.missingRequired ["-count <int>".data]] ∧
    c2Run.success = some true := by
  decide

/-- C3, counterexample: the token `-2` name-matches the registered optional
`2` (so by the claim a bounded sequence must never consume it), yet parsing
`-vals 1 -2 3` consumes it into the sequence: there is no look-ahead in
`ParseVector`, and `-2` parses as the int −2. -/
theorem C3_counterexample :
    findNamedIdx valsAndTwoReg "-2".data = some 1 ∧
    c3Run.store 0 = Value.vecIntV [1, -2, 3] ∧
    c3Run.success = some true ∧ c3Run.errors = [] := by
  decide

/-- C4, counterexample: the claim says a 6th parseable value is *not*
consumed; in fact `ParseVector` consumes greedily with no knowledge of
`maxArgs`, so all six values end up in the destination vector, and only then
does the `c > maxArgs` check fail the parse. -/
theorem C4_counterexample :
    (c4Run ["1".data, "2".data, "3".data, "4".data, "5".data, "6".data]).store 0
      = Value.vecIntV [1, 2, 3, 4, 5, 6] ∧
    (c4Run ["1".data, "2".data, "3".data, "4".data, "5".data, "6".data]).errors
      = [ErrKind.arityTooMany "vals".data 5] ∧
    (c4Run ["1".data, "2".data, "3".data, "4".data, "5".data, "6".data]).success
      = some false := by
  decide

/-- C4, amended: for a `[3, 5]` sequence, 2 parseable values fail with the
too-few arity violation; 3, 4, or 5 values succeed with exactly those
values stored; 6 parseable values are all consumed into the destination and
the parse fails with the arity violation at `maxArgs`. -/
theorem C4_arity_bounds :
    ((c4Run ["1".data, "2".data]).success = some false ∧
      (c4Run ["1".data, "2".data]).errors = [ErrKind.arityTooFew "vals".data 3 2]) ∧
    ((c4Run ["1".data, "2".data, "3".data]).success = some true ∧
      (c4Run ["1".data, "2".data, "3".data]).store 0 = Value.vecIntV [1, 2, 3]) ∧
    ((c4Run ["1".data, "2".data, "3".data, "4".data]).success = some true ∧
      (c4Run ["1".data, "2".data, "3".data, "4".data]).store 0 = Value.vecIntV [1, 2, 3, 4]) ∧
    ((c4Run ["1".data, "2".data, "3".data, "4".data, "5".data]).success = some true ∧
      (c4Run ["1".data, "2".data, "3".data, "4".data, "5".data]).store 0
        = Value.vecIntV [1, 2, 3, 4, 5]) ∧
    ((c4Run ["1".data, "2".data, "3".data, "4".data, "5".data, "6".data]).success
        = some false ∧
      (c4Run ["1".data, "2".data, "3".data, "4".data, "5".data, "6".data]).errors
        = [ErrKind.arityTooMany "vals".data 5] ∧
      (c4Run ["1".data, "2".data, "3".data, "4".data, "5".data, "6".data]).store 0
        = Value.vecIntV [1, 2, 3, 4, 5, 6]) := by
  decide

/-- C7, evaluated at the failing input (code bug): with the global
`kRequired` flag and an unset positional `name <string>`, the default
configuration exits with code 1 as the claim says; but with
`kNoExitOnError` the same parse-time error is reported and `ParseArgs`
nevertheless returns `success = true` — not `false` as the claim (and
clue.h's own comment on `kNoExitOnError`) requires. -/
theorem C7_missing_required_not_failure :
    (c7Run false).exitCode = some 1 ∧ (c7Run false).usagePrinted = true ∧
    (c7Run false).errors = [ErrKind.missingRequired ["name <string>".data]] ∧
    (c7Run true).success = some true ∧
    (c7Run true).errors = [ErrKind.missingRequired ["name <string>".data]] := by
  decide

/-- C5: matching a bool flag token consumes no following token (the next
token `hello` still reaches the positional) and sets the destination to the
complement of its current value, whatever that value is; in particular a
bool defaulting to `false` becomes `true` after one occurrence. -/
theorem C5_bool_toggle (b : Bool) :
    (c5Run b).store 0 = Value.boolV (!b) ∧
    (c5Run b).store 1 = Value.strV "hello".data ∧
    (c5Run b).success = some true ∧
    (c5Run false).store 0 = Value.boolV true := by
  cases b <;> decide

/-- On the all-`'a'` input the `AppendNatural` loop condition always holds
and one loop iteration preserves the cycling invariant. -/
theorem anDivInv_step (s : ANState) (h : anDivInv s) :
    anCond (fun _ => 'a') 100 s = true ∧ anDivInv (anBody (fun _ => 'a') 100 0 s) := by
  obtain ⟨out, ll, cur, cls, lbp⟩ := s
  obtain ⟨hlbp, hll, hcase⟩ := h
  replace hlbp : lbp = 0 := hlbp
  replace hll : ll = 0 := hll
  subst hlbp
  subst hll
  rcases hcase with ⟨hcls, hc⟩ | ⟨hcls, hc1, hc⟩
  · replace hcls : cls = 0 := hcls
    replace hc : cur ≤ 81 := hc
    subst hcls
    refine ⟨?_, ?_⟩
    · simp only [anCond, Bool.and_eq_true, decide_eq_true_eq]
      refine ⟨?_, by decide⟩
      show cur < 100
      omega
    · simp only [anBody, appendSub, maxLineLen,
        if_neg (show ¬('a' = ' ' ∨ 'a' = '\t') by decide),
        if_neg (show ¬('a' = '\n') by decide)]
      by_cases h80 : cur ≤ 80
      · rw [if_neg (show ¬((cur : Int) - (0 : Nat) + (0 : Nat) > (80 : Nat)) by
          push_cast; omega)]
        refine ⟨rfl, rfl, Or.inl ⟨rfl, ?_⟩⟩
        show cur + 1 ≤ 81
        omega
      · rw [if_pos (show (cur : Int) - (0 : Nat) + (0 : Nat) > (80 : Nat) by
          push_cast; omega)]
        refine ⟨rfl, rfl, Or.inr ⟨rfl, ?_, ?_⟩⟩
        · show (1 : Nat) ≤ 0 + 1
          decide
        · show (0 : Nat) + 1 ≤ 82
          decide
  · replace hcls : cls = 1 := hcls
    replace hc1 : 1 ≤ cur := hc1
    replace hc : cur ≤ 82 := hc
    subst hcls
    refine ⟨?_, ?_⟩
    · simp only [anCond, Bool.and_eq_true, decide_eq_true_eq]
      refine ⟨?_, by decide⟩
      show cur < 100
      omega
    · simp only [anBody, appendSub, maxLineLen,
        if_neg (show ¬('a' = ' ' ∨ 'a' = '\t') by decide),
        if_neg (show ¬('a' = '\n') by decide)]
      by_cases h81 : cur ≤ 81
      · rw [if_neg (show ¬((cur : Int) - (1 : Nat) + (0 : Nat) > (80 : Nat)) by
          push_cast; omega)]
        refine ⟨rfl, rfl, Or.inr ⟨rfl, ?_, ?_⟩⟩
        · show 1 ≤ cur + 1
          omega
        · show cur + 1 ≤ 82
          omega
      · rw [if_pos (show (cur : Int) - (1 : Nat) + (0 : Nat) > (80 : Nat) by
          push_cast; omega)]
        refine ⟨rfl, rfl, Or.inr ⟨rfl, ?_, ?_⟩⟩
        · show (1 : Nat) ≤ 0 + 1
          decide
        · show (0 : Nat) + 1 ≤ 82
          decide

/-- From any state satisfying the cycling invariant, the `AppendNatural`
loop on the all-`'a'` input never finishes, whatever the fuel. -/
theorem anLoop_none (fuel : Nat) :
    ∀ s, anDivInv s → anLoop (fun _ => 'a') 100 0 fuel s = none := by
  induction fuel with
  | zero => intro s _; rfl
  | succ n ih =>
    intro s hs
    have h := anDivInv_step s hs
    rw [anLoop, if_pos h.1]
    exact ih _ h.2

/-- `takeWhile isDigit` of an all-digit run followed by a remainder that does
not start with a digit is exactly the run. -/
theorem takeWhile_digits_append (ds rest : Tok)
    (hds : ∀ c ∈ ds, c.isDigit = true)
    (hrest : ∀ c, rest.head? = some c → c.isDigit = false) :
    (ds ++ rest).takeWhile (fun c => c.isDigit) = ds := by
  induction ds with
  | nil =>
    cases rest with
    | nil => rfl
    | cons c r => simp [List.takeWhile_cons, hrest c rfl]
  | cons d ds ih =>
    simp only [List.cons_append, List.takeWhile_cons, hds d (List.mem_cons_self d ds),
      if_true, List.cons.injEq, true_and]
    exact ih fun c hc => hds c (List.mem_cons_of_mem d hc)

/-- The accumulator fold `ParseInt`'s digit loop amounts to, expressed
through Mathlib's `Nat.ofDigits` (least significant digit first). -/
theorem foldl_digitVal_ofDigits (ds : Tok) (a : Nat) :
    ds.foldl (fun acc c => acc * 10 + digitVal c) a
      = Nat.ofDigits 10 ((ds.map digitVal).reverse) + a * 10 ^ ds.length := by
  induction ds generalizing a with
  | nil => simp
  | cons d ds ih =>
    simp only [List.foldl_cons, List.map_cons, List.reverse_cons, List.length_cons]
    rw [ih, Nat.ofDigits_append]
    simp [Nat.ofDigits]
    ring

/-- Evaluation of the modelled `std::from_chars` on a token decomposed as
optional sign, nonempty digit run, non-digit remainder: the matched value is
the signed `Nat.ofDigits` value of the run, reported out of range when it
does not fit in a 32-bit `int`. -/
theorem fromCharsInt_digitRun (sgn : Bool) (ds rest : Tok)
    (hds : ∀ c ∈ ds, c.isDigit = true)
    (hrest : ∀ c, rest.head? = some c → c.isDigit = false)
    (hne : ds ≠ []) :
    fromCharsInt ((if sgn then ['-'] else []) ++ ds ++ rest) =
      if signedDigitsVal sgn ds < intMin then ⟨Ec.resultOutOfRange, 0⟩
      else if intMax < signedDigitsVal sgn ds then ⟨Ec.resultOutOfRange, 0⟩
      else ⟨Ec.ok, signedDigitsVal sgn ds⟩ := by
  have htw : (ds ++ rest).takeWhile (fun c => c.isDigit) = ds :=
    takeWhile_digits_append ds rest hds hrest
  have hof : ds.foldl (fun acc c => acc * 10 + digitVal c) 0
      = Nat.ofDigits 10 ((ds.map digitVal).reverse) := by
    rw [foldl_digitVal_ofDigits]
    simp
  cases sgn with
  | true =>
    show fromCharsInt ('-' :: (ds ++ rest)) = _
    simp [fromCharsInt, List.head?_cons, List.tail_cons, htw, hof, if_neg hne,
      signedDigitsVal, neg_one_mul]
  | false =>
    obtain ⟨d, ds', rfl⟩ : ∃ d ds', ds = d :: ds' := by
      cases ds with
      | nil => exact absurd rfl hne
      | cons d t => exact ⟨d, t, rfl⟩
    have hd : d ≠ '-' := by
      intro hd
      have hdig := hds d (List.mem_cons_self d ds')
      rw [hd] at hdig
      exact absurd hdig (by decide)
    show fromCharsInt ((d :: ds') ++ rest) = _
    rw [List.cons_append] at htw ⊢
    simp [fromCharsInt, List.head?_cons, Option.some.injEq, hd, htw, hof,
      if_neg hne, signedDigitsVal]

/-- C1, amended: the integer scalar parser performs a base-10 *prefix*
parse.  Writing the value token as an optional minus sign, a digit run, and
a remainder that does not start with a digit (nor, when it is the whole
unsigned token, with a minus sign), the parse fails as `MalformedValue`
exactly when the digit run is empty, fails as `OutOfRange` when the run's
signed value (`Nat.ofDigits` of its digits) lies outside the 32-bit signed
bounds, and otherwise succeeds with that value — trailing non-integer
characters after the digit run are ignored, not rejected. -/
theorem C1_int_prefix_parse (sgn : Bool) (ds rest : Tok)
    (hds : ∀ c ∈ ds, c.isDigit = true)
    (hrest : ∀ c, rest.head? = some c → c.isDigit = false)
    (hnm : sgn = false → ds = [] → rest.head? ≠ some '-') :
    (ds = [] →
      (fromCharsInt ((if sgn then ['-'] else []) ++ ds ++ rest)).ec = Ec.invalidArgument)
  ∧ (ds ≠ [] → intMin ≤ signedDigitsVal sgn ds → signedDigitsVal sgn ds ≤ intMax →
      fromCharsInt ((if sgn then ['-'] else []) ++ ds ++ rest)
        = ⟨Ec.ok, signedDigitsVal sgn ds⟩)
  ∧ (ds ≠ [] → (signedDigitsVal sgn ds < intMin ∨ intMax < signedDigitsVal sgn ds) →
      (fromCharsInt ((if sgn then ['-'] else []) ++ ds ++ rest)).ec
        = Ec.resultOutOfRange) := by
  refine ⟨?_, ?_, ?_⟩
  · intro h0
    subst h0
    have htw0 : rest.takeWhile (fun c => c.isDigit) = [] := by
      cases rest with
      | nil => rfl
      | cons c r => simp [List.takeWhile_cons, hrest c rfl]
    cases sgn with
    | true =>
      show (fromCharsInt ('-' :: rest)).ec = _
      simp [fromCharsInt, htw0]
    | false =>
      have hh : rest.head? ≠ some '-' := hnm rfl rfl
      show (fromCharsInt rest).ec = _
      simp [fromCharsInt, hh, htw0]
  · intro hne h1 h2
    rw [fromCharsInt_digitRun sgn ds rest hds hrest hne, if_neg (by omega),
      if_neg (by omega)]
  · intro hne h12
    have hrange : intMin ≤ intMax := by decide
    rw [fromCharsInt_digitRun sgn ds rest hds hrest hne]
    rcases h12 with h | h
    · rw [if_pos h]
    · rw [if_neg (by omega), if_pos h]

/-- Witness for the amended C1 at the concrete decomposition
`"123abc" = "" ++ "123" ++ "abc"`: the parse succeeds with 123. -/
theorem C1_int_prefix_parse_witness :
    (∀ c ∈ "123".data, c.isDigit = true) ∧
    (∀ c, "abc".data.head? = some c → c.isDigit = false) ∧
    fromCharsInt "123abc".data = ⟨Ec.ok, 123⟩ := by
  refine ⟨by decide, by decide, ?_⟩
  have h := (C1_int_prefix_parse false "123".data "abc".data (by decide) (by decide)
    (fun _ habs => absurd habs (by decide))).2.1 (by decide) (by decide) (by decide)
  simpa using h

/-- The `ParseVector` loop computes exactly the greedy semantics: starting
from `argIndex = ai` (the target's flag index), it consumes the longest
int-parseable run of tokens beginning at `ai + 1`, appends their values to
the accumulator, leaves the diagnostics untouched (its sub-parser is called
with error reporting off), counts the run, and leaves `argIndex` on the last
consumed token — one before the failing or missing token. -/
theorem parseVectorLoop_spec (argv : List Tok) (name : Tok) :
    ∀ (fuel ai : Nat) (acc : List Int) (errs : List ErrKind),
      (argv.drop (ai + 1)).length + 1 ≤ fuel →
      parseVectorLoop argv name fuel ai acc errs =
        (ai + (greedyInts (argv.drop (ai + 1))).2,
         acc ++ (greedyInts (argv.drop (ai + 1))).1, errs,
         (greedyInts (argv.drop (ai + 1))).2) := by
  intro fuel
  induction fuel with
  | zero =>
    intro ai acc errs h
    omega
  | succ fuel ih =>
    intro ai acc errs h
    by_cases hai : ai ≤ argv.length
    · by_cases hlen : argv.length ≤ ai + 1
      · have hdrop : argv.drop (ai + 1) = [] := List.drop_eq_nil_of_le hlen
        rw [parseVectorLoop, if_pos hai, hdrop]
        simp [parseIntTok, hlen, greedyInts]
      · push_neg at hlen
        have hdrop : argv.drop (ai + 1) = argv[ai + 1] :: argv.drop (ai + 2) :=
          List.drop_eq_getElem_cons hlen
        have hget : argv.getD (ai + 1) [] = argv[ai + 1] :=
          List.getD_eq_getElem argv [] hlen
        have hfuel : (argv.drop (ai + 2)).length + 1 ≤ fuel := by
          have hl := congrArg List.length hdrop
          simp only [List.length_cons] at hl
          omega
        rw [parseVectorLoop, if_pos hai]
        rcases hec : fromCharsInt argv[ai + 1] with ⟨ec, v⟩
        cases ec with
        | ok =>
          have hint : parseIntTok argv name false ai errs = (ai + 1, errs, (v, true)) := by
            simp [parseIntTok, Nat.not_le.mpr hlen, List.getElem?_eq_getElem hlen, hec]
          have hgr : greedyInts (argv.drop (ai + 1))
              = (v :: (greedyInts (argv.drop (ai + 2))).1,
                 (greedyInts (argv.drop (ai + 2))).2 + 1) := by
            rw [hdrop]
            simp [greedyInts, hec]
          rw [hint]
          dsimp only
          rw [if_pos rfl, ih (ai + 1) (acc ++ [v]) errs hfuel]
          dsimp only
          rw [hgr]
          simp [List.append_assoc, Nat.add_comm, Nat.add_left_comm, Nat.add_assoc]
        | invalidArgument =>
          have hint : parseIntTok argv name false ai errs = (ai + 1, errs, (v, false)) := by
            simp [parseIntTok, Nat.not_le.mpr hlen, List.getElem?_eq_getElem hlen, hec]
          have hgr : greedyInts (argv.drop (ai + 1)) = ([], 0) := by
            rw [hdrop]
            simp [greedyInts, hec]
          rw [hint]
          dsimp only
          rw [if_neg (by decide), hgr]
          simp
        | resultOutOfRange =>
          have hint : parseIntTok argv name false ai errs = (ai + 1, errs, (v, false)) := by
            simp [parseIntTok, Nat.not_le.mpr hlen, List.getElem?_eq_getElem hlen, hec]
          have hgr : greedyInts (argv.drop (ai + 1)) = ([], 0) := by
            rw [hdrop]
            simp [greedyInts, hec]
          rw [hint]
          dsimp only
          rw [if_neg (by decide), hgr]
          simp
    · rw [parseVectorLoop, if_neg hai]
      have hdrop : argv.drop (ai + 1) = [] := List.drop_eq_nil_of_le (by omega)
      rw [hdrop]
      simp [greedyInts]

/-- C3, amended: `ParseVector` clears the destination first (the result is
exactly the greedy run, independent of any prior contents) and consumes
tokens greedily, stopping only when input is exhausted or when a sub-parse
fails, in which case the failing token is pushed back (`argIndex` ends one
before it) and not consumed.  There is no name-match look-ahead: a token
that name-matches a registered optional is consumed whenever it parses as an
element value. -/
theorem C3_sequence_consumption (argv : List Tok) (name : Tok) (ai : Nat)
    (errs : List ErrKind) :
    parseVector argv name ai errs =
      (ai + (greedyInts (argv.drop (ai + 1))).2,
       (greedyInts (argv.drop (ai + 1))).1, errs,
       (greedyInts (argv.drop (ai + 1))).2) := by
  have hlen : (argv.drop (ai + 1)).length + 1 ≤ argv.length + 2 := by
    have := List.length_drop (ai + 1) argv
    omega
  simpa [parseVector] using
    parseVectorLoop_spec argv name (argv.length + 2) ai [] errs hlen

/-- C9, evaluated at the failing input (code bug): `AppendNatural` on a
100-character description containing no whitespace (all `'a'`), at indent 0,
never terminates — after the first wrap at column 81 the loop returns to the
state `cursor = currentLineStart = 1` with the stale `lastBreakablePos = 0`,
climbs back to 82, appends zero characters, and resets, forever.  Since
`PrintUsage` (reached from the auto-help token or the missing-required
report) passes every description through `AppendNatural`, a `ParseArgs` call
rendering help for such a description does not terminate, contradicting the
claim that every loop of the parse makes bounded progress. -/
theorem C9_appendNatural_nonterminating (fuel : Nat) :
    appendNatural (fun _ => 'a') 100 0 fuel [] 0 = none := by
  unfold appendNatural
  rw [anLoop_none fuel ⟨[], 0, 0, 0, 0⟩ ⟨rfl, rfl, Or.inl ⟨rfl, by decide⟩⟩]

/-- C6: with two positional string descriptors registered in order and no
named arguments, the tokens `x` then `y` (neither a help spelling) fill P1
with `x` and P2 with `y`: each unmatched token makes the engine take the
next positional descriptor and rewind its cursor by one, so the token
itself becomes the parsed value. -/
theorem C6_positional_order (x y : Tok)
    (hx : isHelpTok x = false) (hy : isHelpTok y = false) :
    (c6Run x y).store 0 = Value.strV x ∧
    (c6Run x y).store 1 = Value.strV y ∧
    (c6Run x y).success = some true := by
  simp [c6Run, parseArgs, parseLoop, parseStep, findNamedIdx, dispatchArg,
    requiredSweep, markSet, writeSlot, setSlot, twoStringPos, zeroStore, hx, hy,
    Outcome.store, Outcome.success, List.getD, report, errorOutcome]

/-- Witness for C6 at the claim's concrete tokens `"x" "y"`. -/
theorem C6_positional_order_witness :
    isHelpTok "x".data = false ∧ isHelpTok "y".data = false ∧
    (c6Run "x".data "y".data).store 0 = Value.strV "x".data :=
  ⟨by decide, by decide,
    (C6_positional_order "x".data "y".data (by decide) (by decide)).1⟩

/-- C8: whatever descriptors are registered and whatever the initial store,
when auto-help is not suppressed a reserved help spelling as the first
argument makes `ParseArgs` print usage and exit with code 1, with the store
(every destination) exactly as it was and no diagnostics reported. -/
theorem C8_auto_help (args positionals : List Arg) (store : Store)
    (flags : Flags) (h : Tok) (hna : flags.noAutoHelp = false)
    (hh : h = "-h".data ∨ h = "-help".data ∨ h = "--help".data ∨ h = "/?".data) :
    parseArgs args positionals store ["prog".data, h] flags
      = Outcome.exited 1 ⟨store, args, positionals, [], true⟩ := by
  rcases hh with rfl | rfl | rfl | rfl <;>
    simp [parseArgs, parseLoop, parseStep, isHelpTok, hna, List.getD]

/-- Witness for C8: the claim's `["prog", "-h"]` scenario against the
`-count` registry under default flags. -/
theorem C8_auto_help_witness :
    ({} : Flags).noAutoHelp = false ∧
    parseArgs countReg [] zeroStore ["prog".data, "-h".data] {}
      = Outcome.exited 1 ⟨zeroStore, countReg, [], [], true⟩ :=
  ⟨rfl, C8_auto_help countReg [] zeroStore {} "-h".data rfl (Or.inl rfl)⟩

/-- C10: any nonempty token whose tail (the token with its first character
removed, whatever that character is) equals the registered name `count`
resolves to that optional: `7` is consumed as its int value, no error is
reported, and the positional slot is never touched — the engine never
checks that the leading character is a dash. -/
theorem C10_first_char_ignored (token : Tok) (hne : token ≠ [])
    (hdrop : token.drop 1 = "count".data) (hhelp : isHelpTok token = false) :
    (c10Run token).store 0 = Value.intV 7 ∧
    (c10Run token).store 1 = Value.intV 0 ∧
    (c10Run token).errors = [] ∧
    (c10Run token).success = some true := by
  have hlen : 1 ≤ token.length := by
    cases token with
    | nil => exact absurd rfl hne
    | cons c t => simp
  have h7 : fromCharsInt "7".data = ⟨Ec.ok, 7⟩ := by decide
  simp [c10Run, parseArgs, parseLoop, parseStep, findNamedIdx, dispatchArg,
    countReg, msgPos, zeroStore, hhelp, hdrop, hlen, parseIntTok, h7,
    markSet, writeSlot, setSlot, List.getD, Outcome.store, Outcome.success,
    Outcome.errors, requiredSweep, List.findIdx?_cons, List.findIdx?_nil]

/-- Witness for C10 at the concrete token `xcount`, whose first character is
not a dash. -/
theorem C10_first_char_ignored_witness :
    "xcount".data ≠ [] ∧ "xcount".data.drop 1 = "count".data ∧
    isHelpTok "xcount".data = false ∧
    (c10Run "xcount".data).store 0 = Value.intV 7 :=
  ⟨by decide, by decide, by decide,
    (C10_first_char_ignored "xcount".data (by decide) (by decide) (by decide)).1⟩

end Clue
